import Mathlib

/-!
Verification of the identity-number validation and PII-encryption subsystem
of the TTD-Registration backend.

The Lean definitions below are a shallow embedding of the JavaScript source:

* `src/utils/aadhaarValidator.js` — the Verhoeff tables `d` and `p`, the
  functions `verhoeffValidate`, `verhoeffGenerate`, `validateAadhaar` and
  `maskAadhaar`;
* the encryption module (AES-256-GCM wrapper) — `encrypt` and `decrypt`;
* the registration route — its inline `mask` helper and the
  duplicate-prevention lookup that re-encrypts the candidate and compares
  ciphertexts.

JavaScript strings are modelled as Lean `String` (manipulated through their
`List Char` field); plaintext byte sequences (the UTF-8 bytes a cipher call
processes) are modelled as `List Nat` with every entry below 256.
-/

namespace TTD

/-! ### Verhoeff tables (from src/utils/aadhaarValidator.js) -/

/-- The 10×10 multiplication table `d` of the source. -/
def dTable : List (List Nat) :=
  [[0, 1, 2, 3, 4, 5, 6, 7, 8, 9],
   [1, 2, 3, 4, 0, 6, 7, 8, 9, 5],
   [2, 3, 4, 0, 1, 7, 8, 9, 5, 6],
   [3, 4, 0, 1, 2, 8, 9, 5, 6, 7],
   [4, 0, 1, 2, 3, 9, 5, 6, 7, 8],
   [5, 9, 8, 7, 6, 0, 4, 3, 2, 1],
   [6, 5, 9, 8, 7, 1, 0, 4, 3, 2],
   [7, 6, 5, 9, 8, 2, 1, 0, 4, 3],
   [8, 7, 6, 5, 9, 3, 2, 1, 0, 4],
   [9, 8, 7, 6, 5, 4, 3, 2, 1, 0]]

/-- The 8×10 permutation table `p` of the source. -/
def pTable : List (List Nat) :=
  [[0, 1, 2, 3, 4, 5, 6, 7, 8, 9],
   [1, 5, 7, 6, 2, 8, 3, 0, 9, 4],
   [5, 8, 0, 3, 7, 9, 6, 1, 4, 2],
   [8, 9, 1, 6, 0, 4, 3, 5, 2, 7],
   [9, 4, 5, 3, 1, 2, 6, 8, 7, 0],
   [4, 2, 8, 6, 5, 7, 3, 9, 0, 1],
   [2, 7, 9, 3, 8, 0, 6, 4, 1, 5],
   [7, 0, 4, 6, 9, 1, 3, 2, 5, 8]]

/-- Table lookup `d[c][x]`. -/
def dGet (c x : Nat) : Nat := (dTable.getD c []).getD x 0

/-- Table lookup `p[j][v]`. -/
def pGet (j v : Nat) : Nat := (pTable.getD j []).getD v 0

/-- One step of the source loops: `d[c][p[j][v]]`. -/
def vStep (c j v : Nat) : Nat := dGet c (pGet j v)

/-- The running loop of `verhoeffValidate` / `verhoeffGenerate`:
state `c`, running index `i`, remaining (already reversed) digit values.
Each step performs `c = d[c][p[i % 8][v]]`.  `verhoeffValidate` starts the
index at 0, `verhoeffGenerate` (whose loop uses `(i + 1) % 8`) at 1. -/
def vFold (c : Nat) (i : Nat) : List Nat → Nat
  | [] => c
  | v :: vs => vFold (vStep c (i % 8) v) (i + 1) vs

/-! ### Character helpers -/

/-- Whitespace as matched by the JavaScript `\s` class (ASCII part). -/
def isJsWhitespace (c : Char) : Bool :=
  c == ' ' || c == '\t' || c == '\n' || c == '\r' ||
    c == Char.ofNat 11 || c == Char.ofNat 12

/-- `String.replace(/\s/g, '')` on the character list. -/
def stripWS (l : List Char) : List Char := l.filter (fun c => !isJsWhitespace c)

/-- The JavaScript `\d` class (code points of '0'..'9'). -/
def isDigitChar (c : Char) : Bool := 48 ≤ c.toNat && c.toNat ≤ 57

/-- `parseInt` applied to a single digit character (code point minus 48). -/
def digitVal (c : Char) : Nat := c.toNat - 48

/-- Rendering a digit value back to a character (`String((10 - c) % 10)`). -/
def digitToChar (n : Nat) : Char := Char.ofNat ('0'.toNat + n)

/-! ### verhoeffValidate / verhoeffGenerate (from src/utils/aadhaarValidator.js) -/

/-- `verhoeffValidate` on a character list: split, reverse, fold with
`c = d[c][p[i % 8][parseInt(digit)]]` from `c = 0`, valid iff the final
state is 0. -/
def verhoeffValidateL (l : List Char) : Bool :=
  vFold 0 0 (l.reverse.map digitVal) == 0

/-- `verhoeffValidate` on a string. -/
def verhoeffValidate (s : String) : Bool := verhoeffValidateL s.data

/-- The final loop state of `verhoeffGenerate`: same recurrence but the loop
body uses `p[(i + 1) % 8]`, i.e. the running index starts at 1. -/
def genState (l : List Char) : Nat :=
  vFold 0 1 (l.reverse.map digitVal)

/-- `verhoeffGenerate` on a character list: `String((10 - c) % 10)`. -/
def verhoeffGenerateL (l : List Char) : Char :=
  digitToChar ((10 - genState l) % 10)

/-- `verhoeffGenerate` on a string (the source returns a 1-character string). -/
def verhoeffGenerate (s : String) : String := ⟨[verhoeffGenerateL s.data]⟩

/-! ### validateAadhaar (from src/utils/aadhaarValidator.js) -/

/-- Verdict record returned by `validateAadhaar` (`{valid, message}`). -/
structure ValidationResult where
  valid : Bool
  message : String
deriving DecidableEq, Repr

/-- The regex `/^(\d)\1{11}$/`: a digit followed by 11 copies of it. -/
def allSameDigit12 (l : List Char) : Bool :=
  match l with
  | [] => false
  | c :: cs => isDigitChar c && cs.length == 11 && cs.all (· == c)

/-- The fixed deny-list of dummy/sequential numbers compared with `===`. -/
def denyList : List (List Char) :=
  ["123456789012".data, "012345678901".data, "098765432109".data,
   "111111111111".data, "000000000000".data]

/-- `validateAadhaar` after whitespace stripping: the source's checks in
order, each returning its own message; total (the JS function never throws
on string input). -/
def validateAadhaarL (a : List Char) : ValidationResult :=
  if a = [] then
    ⟨false, "Aadhaar number is required"⟩
  else if a.length ≠ 12 then
    ⟨false, "Aadhaar must be exactly 12 digits"⟩
  else if ¬ (a.length = 12 ∧ a.all isDigitChar) then
    ⟨false, "Aadhaar must contain only digits"⟩
  else if allSameDigit12 a then
    ⟨false, "Invalid Aadhaar pattern (all same digits)"⟩
  else if a ∈ denyList then
    ⟨false, "Invalid Aadhaar pattern (sequential or test number)"⟩
  else if a.headD ' ' = '0' ∨ a.headD ' ' = '1' then
    ⟨false, "Invalid Aadhaar format (cannot start with 0 or 1)"⟩
  else if ¬ verhoeffValidateL a then
    ⟨false, "Invalid Aadhaar checksum (Verhoeff algorithm failed)"⟩
  else
    ⟨true, "Valid Aadhaar number"⟩

/-- `validateAadhaar`: coerce to string, strip whitespace, run the checks. -/
def validateAadhaar (s : String) : ValidationResult :=
  validateAadhaarL (stripWS s.data)

/-! ### maskAadhaar (validator) and the route's inline mask helper -/

/-- JavaScript `str.slice(-n)` on a character list: `slice(-0)` is `slice(0)`
(the whole string), otherwise the last `n` characters. -/
def jsSliceNeg (l : List Char) (n : Nat) : List Char :=
  if n = 0 then l else l.drop (l.length - n)

/-- `maskAadhaar` body on a character list. -/
def maskAadhaarL (l0 : List Char) (visibleDigits : Nat) : List Char :=
  if l0 = [] then []
  else
    let l := stripWS l0
    if l.length < visibleDigits then List.replicate l.length '*'
    else List.replicate (l.length - visibleDigits) '*' ++ jsSliceNeg l visibleDigits

/-- `maskAadhaar` from the validator module (default `visibleDigits = 4`). -/
def maskAadhaar (s : String) (visibleDigits : Nat := 4) : String :=
  ⟨maskAadhaarL s.data visibleDigits⟩

/-- The registration route's inline helper
`'*'.repeat(Math.max(0, value.length - visible)) + value.slice(-visible)`. -/
def routeMaskL (l : List Char) (visible : Nat) : List Char :=
  List.replicate (l.length - visible) '*' ++ jsSliceNeg l visible

/-- The route's `mask` (default `visible = 4`). -/
def routeMask (s : String) (visible : Nat := 4) : String :=
  ⟨routeMaskL s.data visible⟩

/-! ### The standard Verhoeff tables, derived rather than tabulated

The spec calls `d` and `p` "the fixed standard constants".  To check that the
source's literals really are the standard Verhoeff tables we reconstruct them
mathematically: `d` is the Cayley table of the dihedral group D₅ (indices
0–4 the rotations, 5–9 the reflections) and row `i` of `p` is the `i`-th
iterate of the standard base permutation `p[1]`. -/

/-- Dihedral-group multiplication on the standard Verhoeff encoding. -/
def dStd (j k : Nat) : Nat :=
  if j < 5 then
    if k < 5 then (j + k) % 5 else ((j + k) % 5) + 5
  else
    if k < 5 then ((j + 5 - k) % 5) + 5 else (j + 5 - k) % 5

/-- The standard Verhoeff base permutation (row 1 of `p`). -/
def pRow1 : List Nat := [1, 5, 7, 6, 2, 8, 3, 0, 9, 4]

/-- Row `i` of the standard permutation table: the `i`-th iterate of the
base permutation. -/
def pStd (i v : Nat) : Nat := (fun x => pRow1.getD x 0)^[i] v

/-- One checksum update as the spec words it, over the standard tables. -/
def specStep (c j v : Nat) : Nat := dStd c (pStd j v)

/-- The checksum recurrence as described by the spec: state `c`, reversed
position `i`, update `c = D[c][P[i mod 8][v]]` over the standard tables. -/
def specFold (c : Nat) (i : Nat) : List Nat → Nat
  | [] => c
  | v :: vs => specFold (specStep c (i % 8) v) (i + 1) vs

/-- The checksum state the spec describes for a digit string: start at 0,
process the digits in reverse order. -/
def specChecksumState (l : List Char) : Nat :=
  specFold 0 0 (l.reverse.map digitVal)

/-- The validator exactly as the claim words it: same order of checks, with
"all 12 digits identical" phrased as "every character equals the first" and
the checksum computed over the standard derived tables. -/
def specValidateL (t : List Char) : ValidationResult :=
  if t = [] then
    ⟨false, "Aadhaar number is required"⟩
  else if t.length ≠ 12 then
    ⟨false, "Aadhaar must be exactly 12 digits"⟩
  else if ¬ t.all isDigitChar then
    ⟨false, "Aadhaar must contain only digits"⟩
  else if t.all (fun c => c == t.headD ' ') then
    ⟨false, "Invalid Aadhaar pattern (all same digits)"⟩
  else if t ∈ denyList then
    ⟨false, "Invalid Aadhaar pattern (sequential or test number)"⟩
  else if t.headD ' ' = '0' ∨ t.headD ' ' = '1' then
    ⟨false, "Invalid Aadhaar format (cannot start with 0 or 1)"⟩
  else if ¬ specChecksumState t = 0 then
    ⟨false, "Invalid Aadhaar checksum (Verhoeff algorithm failed)"⟩
  else
    ⟨true, "Valid Aadhaar number"⟩


/-! ### The PII cipher (from the encryption module)

The source wraps Node's AES-256-GCM.  GCM is counter-mode encryption, so the
ciphertext is the plaintext XORed with a keystream determined by the key and
the initialization vector, plus an authentication tag computed from the key,
the IV and the ciphertext.  The process-wide derived key is fixed at startup,
so we absorb it into the two primitive functions and model the mode itself: a
`GCM` value carries the keystream and the tag function (both producing
bytes); every theorem below holds for *every* such instantiation, i.e. for
whatever AES-256 computes.  Plaintexts are UTF-8 byte lists, blobs are the
strings `hex(iv) ++ ":" ++ hex(ct) ++ ":" ++ hex(tag)` the source emits. -/

/-- The GCM primitive with the process-wide key baked in: `ks iv i` is byte
`i` of the keystream for initialization vector `iv`; `tag iv ct` is the
authentication tag for ciphertext `ct` under that IV.  Both produce bytes. -/
structure GCM where
  ks : List Nat → Nat → Nat
  tag : List Nat → List Nat → List Nat
  ks_lt : ∀ iv i, ks iv i < 256
  tag_lt : ∀ iv ct, ∀ b ∈ tag iv ct, b < 256

/-- Counter-mode XOR of a byte list against the keystream, starting at
keystream position `i`. -/
def xorKS (ks : Nat → Nat) : Nat → List Nat → List Nat
  | _, [] => []
  | i, b :: bs => (b ^^^ ks i) :: xorKS ks (i + 1) bs

/-- Hex digit characters, lowercase as Node's `toString('hex')` emits. -/
def hexDigitChar (n : Nat) : Char :=
  if n < 10 then Char.ofNat (48 + n) else Char.ofNat (87 + n)

/-- One byte as two hex characters. -/
def byteToHex (b : Nat) : List Char := [hexDigitChar (b / 16), hexDigitChar (b % 16)]

/-- `Buffer.toString('hex')`. -/
def bytesToHex (bs : List Nat) : List Char := bs.flatMap byteToHex

/-- Value of a hex character (`Buffer.from(·, 'hex')` accepts both cases). -/
def hexVal (c : Char) : Option Nat :=
  if 48 ≤ c.toNat ∧ c.toNat ≤ 57 then some (c.toNat - 48)
  else if 97 ≤ c.toNat ∧ c.toNat ≤ 102 then some (c.toNat - 87)
  else if 65 ≤ c.toNat ∧ c.toNat ≤ 70 then some (c.toNat - 55)
  else none

/-- `Buffer.from(·, 'hex')`: pairs of hex characters to bytes. -/
def hexToBytes : List Char → Option (List Nat)
  | [] => some []
  | [_] => none
  | c1 :: c2 :: rest =>
    match hexVal c1, hexVal c2, hexToBytes rest with
    | some h, some lo, some bs => some ((16 * h + lo) :: bs)
    | _, _, _ => none

/-- JavaScript `String.split(':')` on a character list. -/
def splitOnColon : List Char → List (List Char)
  | [] => [[]]
  | c :: cs =>
    if c = ':' then [] :: splitOnColon cs
    else
      match splitOnColon cs with
      | [] => [[c]]
      | part :: parts => (c :: part) :: parts

/-- `encrypt`: empty plaintext passes through as the empty string; otherwise
counter-mode-encrypt under the drawn IV and serialize
`hex(iv) ++ ":" ++ hex(ct) ++ ":" ++ hex(tag)`.  The random 16-byte IV of the
source is passed explicitly. -/
def encrypt (G : GCM) (iv : List Nat) (pt : List Nat) : String :=
  if pt = [] then ""
  else
    let ct := xorKS (G.ks iv) 0 pt
    ⟨bytesToHex iv ++ ':' :: (bytesToHex ct ++ ':' :: bytesToHex (G.tag iv ct))⟩

/-- `decrypt`: the falsy guard returns the empty plaintext for an empty blob;
otherwise split on ':', require exactly three parts, decode them, recompute
the authentication tag over the received ciphertext and compare (the check
Node performs in `final()`); on success XOR the ciphertext back.  Every
failure is the thrown `'Failed to decrypt data'`; no partial plaintext is
ever produced. -/
def decrypt (G : GCM) (blob : String) : Except String (List Nat) :=
  if blob = "" then .ok []
  else
    match splitOnColon blob.data with
    | [ivh, cth, tagh] =>
      match hexToBytes ivh, hexToBytes cth, hexToBytes tagh with
      | some iv, some ct, some tagv =>
        if G.tag iv ct = tagv then .ok (xorKS (G.ks iv) 0 ct)
        else .error "Failed to decrypt data"
      | _, _, _ => .error "Failed to decrypt data"
    | _ => .error "Failed to decrypt data"

/-- The registration route's duplicate-prevention lookup: the stored
`id_number_encrypted` blobs are searched for an exact match of a *fresh*
encryption of the candidate identity number
(`Team.findOne({'members.id_number_encrypted': encrypt(m.id_number)})`). -/
def duplicateLookup (storedBlobs : List String) (G : GCM) (iv : List Nat)
    (idNumber : List Nat) : Bool :=
  storedBlobs.contains (encrypt G iv idNumber)

/-- A concrete `GCM` instance (all-zero keystream, empty tag), used to
evaluate the quantified theorems at a witness point. -/
def gcm0 : GCM where
  ks := fun _ _ => 0
  tag := fun _ _ => []
  ks_lt := fun _ _ => by show (0 : Nat) < 256; decide
  tag_lt := fun _ _ b hb => by simp at hb

/-- A concrete `GCM` instance whose tag is the (byte-clamped) ciphertext
itself, giving a collision-free tag for witness evaluation. -/
def gcmId : GCM where
  ks := fun _ _ => 0
  tag := fun _ ct => ct.map (fun b => b % 256)
  ks_lt := fun _ _ => by show (0 : Nat) < 256; decide
  tag_lt := fun _ ct b hb => by
    simp only [List.mem_map] at hb
    obtain ⟨x, _, rfl⟩ := hb
    exact Nat.mod_lt _ (by omega)

/-- The canonical lowercase hex alphabet that `encrypt`'s serialization
emits: the 16 characters `hexDigitChar` can produce. -/
def lowerHexChars : List Char := (List.range 16).map hexDigitChar

/-! ### Finite table facts (settled by `decide`) -/

theorem step_eq_stepStd : ∀ c < 10, ∀ j < 8, ∀ v < 10, vStep c j v = specStep c j v := by
  decide

theorem step_lt : ∀ c < 10, ∀ j < 8, ∀ v < 10, vStep c j v < 10 := by
  decide

theorem dGet_zero_right : ∀ c < 10, dGet c 0 = c := by decide

theorem dGet_left_id : ∀ v < 10, dGet 0 v = v := by decide

theorem dGet_assoc : ∀ a < 10, ∀ b < 10, ∀ c < 10,
    dGet (dGet a b) c = dGet a (dGet b c) := by decide

theorem dGet_lt : ∀ a < 10, ∀ b < 10, dGet a b < 10 := by decide

theorem pGet_lt : ∀ j < 8, ∀ v < 10, pGet j v < 10 := by decide

theorem vStep_zero (v : Nat) (hv : v < 10) : vStep 0 0 v = v := by
  revert v; decide

/-! ### Fold lemmas -/

theorem vFold_lt (xs : List Nat) : ∀ c < 10, ∀ i, (∀ v ∈ xs, v < 10) →
    vFold c i xs < 10 := by
  induction xs with
  | nil => intro c hc i _; simpa [vFold] using hc
  | cons v vs ih =>
    intro c hc i hall
    have hv : v < 10 := hall v (List.mem_cons_self v vs)
    have hstep : vStep c (i % 8) v < 10 :=
      step_lt c hc (i % 8) (Nat.mod_lt _ (by omega)) v hv
    simpa [vFold] using ih _ hstep (i + 1)
      (fun x hx => hall x (List.mem_cons_of_mem _ hx))

theorem vFold_eq_specFold (xs : List Nat) : ∀ c < 10, ∀ i, (∀ v ∈ xs, v < 10) →
    vFold c i xs = specFold c i xs := by
  induction xs with
  | nil => intro c _ i _; rfl
  | cons v vs ih =>
    intro c hc i hall
    have hv : v < 10 := hall v (List.mem_cons_self v vs)
    have hj : i % 8 < 8 := Nat.mod_lt _ (by omega)
    have hstep : vStep c (i % 8) v < 10 := step_lt c hc (i % 8) hj v hv
    have heq : vStep c (i % 8) v = specStep c (i % 8) v :=
      step_eq_stepStd c hc (i % 8) hj v hv
    simp only [vFold, specFold, ← heq]
    exact ih _ hstep (i + 1) (fun x hx => hall x (List.mem_cons_of_mem _ hx))

/-- Pulling the initial state out of the fold: starting from a state `c`
gives `d[c][·]` applied to the result of starting from 0 (associativity of
the dihedral multiplication). -/
theorem vFold_from_state (xs : List Nat) : ∀ c < 10, ∀ i, (∀ v ∈ xs, v < 10) →
    vFold c i xs = dGet c (vFold 0 i xs) := by
  induction xs with
  | nil =>
    intro c hc i _
    simp [vFold, dGet_zero_right c hc]
  | cons v vs ih =>
    intro c hc i hall
    have hv : v < 10 := hall v (List.mem_cons_self v vs)
    have hj : i % 8 < 8 := Nat.mod_lt _ (by omega)
    have hy : pGet (i % 8) v < 10 := pGet_lt (i % 8) hj v hv
    have hall' : ∀ x ∈ vs, x < 10 := fun x hx => hall x (List.mem_cons_of_mem _ hx)
    have hstep : vStep c (i % 8) v < 10 := step_lt c hc (i % 8) hj v hv
    have hM : vFold (pGet (i % 8) v) (i + 1) vs < 10 := vFold_lt vs _ hy (i + 1) hall'
    calc vFold c i (v :: vs)
        = vFold (dGet c (pGet (i % 8) v)) (i + 1) vs := rfl
      _ = dGet (dGet c (pGet (i % 8) v)) (vFold 0 (i + 1) vs) := ih _ hstep (i + 1) hall'
      _ = dGet c (dGet (pGet (i % 8) v) (vFold 0 (i + 1) vs)) := by
          have h0 : vFold 0 (i + 1) vs < 10 := by
            have := vFold_lt vs 0 (by omega) (i + 1) hall'
            exact this
          exact dGet_assoc c hc _ hy _ h0
      _ = dGet c (vFold (pGet (i % 8) v) (i + 1) vs) := by
          have : vFold (pGet (i % 8) v) (i + 1) vs
              = dGet (pGet (i % 8) v) (vFold 0 (i + 1) vs) := ih _ hy (i + 1) hall'
          rw [this]
      _ = dGet c (vFold (vStep 0 (i % 8) v) (i + 1) vs) := by
          have : vStep 0 (i % 8) v = pGet (i % 8) v := by
            simpa [vStep] using dGet_left_id _ hy
          rw [this]
      _ = dGet c (vFold 0 i (v :: vs)) := rfl

theorem digitVal_lt (c : Char) (h : isDigitChar c) : digitVal c < 10 := by
  simp [isDigitChar] at h
  simp [digitVal]
  omega

theorem digits_lt (l : List Char) (h : ∀ c ∈ l, isDigitChar c) :
    ∀ v ∈ l.reverse.map digitVal, v < 10 := by
  intro v hv
  simp only [List.mem_map, List.mem_reverse] at hv
  obtain ⟨c, hc, rfl⟩ := hv
  exact digitVal_lt c (h c hc)

theorem digitVal_digitToChar : ∀ g < 10, digitVal (digitToChar g) = g := by decide

/-! ### Claim C1 -/

/-- C1: on any 12-digit string, `verhoeffValidate` accepts exactly when the
checksum state described by the spec — start at 0, process the digits in
reverse order, update `c = D[c][P[i mod 8][v]]` over the *standard* Verhoeff
tables (here derived from the dihedral group D₅ and the iterated base
permutation rather than tabulated) — ends at 0. -/
theorem c1_verhoeff_checksum_spec (s : String)
    (hlen : s.data.length = 12) (hdig : ∀ c ∈ s.data, isDigitChar c) :
    verhoeffValidate s = true ↔ specChecksumState s.data = 0 := by
  unfold verhoeffValidate verhoeffValidateL specChecksumState
  rw [vFold_eq_specFold _ 0 (by omega) 0 (digits_lt _ hdig)]
  exact beq_iff_eq

theorem c1_witness :
    ("234123412346" : String).data.length = 12 ∧
      (verhoeffValidate "234123412346" = true ↔
        specChecksumState ("234123412346" : String).data = 0) :=
  ⟨by decide, c1_verhoeff_checksum_spec "234123412346" (by decide) (by decide)⟩

/-! ### Claim C3 -/

theorem validateAadhaarL_eq_spec (a : List Char) :
    validateAadhaarL a = specValidateL a := by
  unfold validateAadhaarL specValidateL
  by_cases h1 : a = []
  · simp [h1]
  rw [if_neg h1, if_neg h1]
  by_cases h2 : a.length = 12
  case neg => rw [if_pos h2, if_pos h2]
  rw [if_neg (not_not_intro h2), if_neg (not_not_intro h2)]
  by_cases h3 : a.all isDigitChar
  case neg =>
    rw [if_pos (show ¬(a.length = 12 ∧ a.all isDigitChar) from fun hk => h3 hk.2),
      if_pos h3]
  rw [if_neg (not_not_intro ⟨h2, h3⟩), if_neg (not_not_intro h3)]
  obtain ⟨c, cs, rfl⟩ : ∃ c cs, a = c :: cs := by
    cases a with
    | nil => simp at h2
    | cons c cs => exact ⟨c, cs, rfl⟩
  have hsame : allSameDigit12 (c :: cs) =
      (c :: cs).all (fun x => x == (c :: cs).headD ' ') := by
    simp only [allSameDigit12, List.all_cons, List.headD_cons, beq_self_eq_true,
      Bool.true_and]
    have hc : isDigitChar c := by
      have := (List.all_eq_true.mp h3) c (List.mem_cons_self c cs)
      simpa using this
    have hlen11 : cs.length == 11 := by
      simp only [List.length_cons] at h2
      simp [Nat.succ_inj.mp h2]
    simp [hc, hlen11]
  rw [hsame]
  by_cases h4 : (c :: cs).all (fun x => x == (c :: cs).headD ' ')
  case pos => rw [if_pos h4, if_pos h4]
  rw [if_neg h4, if_neg h4]
  by_cases h5 : (c :: cs) ∈ denyList
  case pos => rw [if_pos h5, if_pos h5]
  rw [if_neg h5, if_neg h5]
  by_cases h6 : (c :: cs).headD ' ' = '0' ∨ (c :: cs).headD ' ' = '1'
  case pos => rw [if_pos h6, if_pos h6]
  rw [if_neg h6, if_neg h6]
  have hdigits : ∀ x ∈ (c :: cs), isDigitChar x := by
    intro x hx
    have := (List.all_eq_true.mp h3) x hx
    simpa using this
  have hcs : verhoeffValidateL (c :: cs) = true ↔ specChecksumState (c :: cs) = 0 := by
    unfold verhoeffValidateL specChecksumState
    rw [vFold_eq_specFold _ 0 (by omega) 0 (digits_lt _ hdigits)]
    exact beq_iff_eq
  by_cases h7 : specChecksumState (c :: cs) = 0
  case pos =>
    rw [if_neg (not_not_intro (hcs.mpr h7)), if_neg (not_not_intro h7)]
  case neg =>
    rw [if_pos (show ¬(verhoeffValidateL (c :: cs) = true) from
        fun hk => h7 (hcs.mp hk)),
      if_pos h7]

/-- C3: `validateAadhaar` (after stripping whitespace) is total and agrees,
on every input string, with the verdict function the claim describes —
rejecting, in order, empty input, wrong length, non-digits, all-identical
digits, deny-list members, a leading '0' or '1', and a failing Verhoeff
checksum, accepting exactly when all checks pass with checksum state 0 —
and the seven reason strings are pairwise distinct. -/
theorem c3_validateAadhaar_spec :
    (∀ s : String, validateAadhaar s = specValidateL (stripWS s.data)) ∧
      List.Pairwise (· ≠ ·)
        ["Aadhaar number is required",
         "Aadhaar must be exactly 12 digits",
         "Aadhaar must contain only digits",
         "Invalid Aadhaar pattern (all same digits)",
         "Invalid Aadhaar pattern (sequential or test number)",
         "Invalid Aadhaar format (cannot start with 0 or 1)",
         "Invalid Aadhaar checksum (Verhoeff algorithm failed)"] := by
  constructor
  · intro s
    exact validateAadhaarL_eq_spec (stripWS s.data)
  · decide

theorem c3_witness :
    validateAadhaar "234123412346" = specValidateL (stripWS ("234123412346" : String).data) :=
  c3_validateAadhaar_spec.1 "234123412346"

/-! ### Claim C7 -/

theorem dGet_complement : ∀ m < 10, (dGet ((10 - m) % 10) m = 0 ↔ (m = 0 ∨ m = 5)) := by
  decide

/-- C7 counterexample: for the 11-digit body "00000000001" the generated
check digit is "1", and the resulting 12-digit string fails
`verhoeffValidate` — so appending the generated digit does *not* always
produce a string the checksum accepts. -/
theorem c7_counterexample :
    ("00000000001" : String).data.length = 11 ∧
      (∀ c ∈ ("00000000001" : String).data, isDigitChar c) ∧
      verhoeffGenerate "00000000001" = "1" ∧
      verhoeffValidate ("00000000001" ++ verhoeffGenerate "00000000001") = false := by
  refine ⟨by decide, by decide, by decide, by decide⟩

/-- C7 (amended): for an 11-digit body `b`, `verhoeffValidate (b ++
verhoeffGenerate b)` accepts exactly when the generation recurrence's final
state is 0 or 5 — the states on which `(10 - c) % 10` agrees with the
Verhoeff inverse; for all other final states the generated digit fails its
own validator. -/
theorem c7_generate_validate (s : String)
    (hlen : s.data.length = 11) (hdig : ∀ c ∈ s.data, isDigitChar c) :
    (verhoeffValidate (s ++ verhoeffGenerate s) = true ↔
      (genState s.data = 0 ∨ genState s.data = 5)) := by
  obtain ⟨l⟩ := s
  have hdata : (String.mk l ++ verhoeffGenerate (String.mk l)).data
      = l ++ [verhoeffGenerateL l] := rfl
  have hall : ∀ v ∈ l.reverse.map digitVal, v < 10 := digits_lt _ hdig
  have hm : genState l < 10 := vFold_lt _ 0 (by omega) 1 hall
  have hg : (10 - genState l) % 10 < 10 := Nat.mod_lt _ (by omega)
  have hrev : (l ++ [verhoeffGenerateL l]).reverse.map digitVal
      = (10 - genState l) % 10 :: l.reverse.map digitVal := by
    simp [verhoeffGenerateL, digitVal_digitToChar _ hg]
  unfold verhoeffValidate verhoeffValidateL
  rw [hdata, hrev]
  have hstep : vFold 0 0 ((10 - genState l) % 10 :: l.reverse.map digitVal)
      = vFold ((10 - genState l) % 10) 1 (l.reverse.map digitVal) := by
    have h0 : vStep 0 (0 % 8) ((10 - genState l) % 10) = (10 - genState l) % 10 := by
      simpa using vStep_zero _ hg
    simp [vFold, h0]
  rw [hstep, vFold_from_state _ _ hg 1 hall]
  rw [show vFold 0 1 (l.reverse.map digitVal) = genState l from rfl]
  rw [show ((dGet ((10 - genState l) % 10) (genState l) == 0) = true)
      ↔ dGet ((10 - genState l) % 10) (genState l) = 0 from beq_iff_eq]
  exact dGet_complement _ hm

theorem c7_witness :
    verhoeffValidate ("12345678901" ++ verhoeffGenerate "12345678901") = true :=
  (c7_generate_validate "12345678901" (by decide) (by decide)).mpr (Or.inl (by decide))

/-! ### Claim C8 -/

/-- C8 counterexample: with visible-count 0 the JavaScript `slice(-0)`
returns the whole string, so `maskAadhaar "abc" 0` is `"***abc"` (claim
would give `"***"`); and `maskAadhaar` strips whitespace first, so
`maskAadhaar "a b" 4` is `"**"`, not a fully masked 3-character string. -/
theorem c8_counterexample :
    maskAadhaar "abc" 0 = "***abc" ∧ maskAadhaar "abc" 0 ≠ "***" ∧
      maskAadhaar "a b" 4 = "**" ∧ maskAadhaar "a b" 4 ≠ "***" := by
  refine ⟨by decide, by decide, by decide, by decide⟩

/-- C8 (amended): for every plaintext and every visible-count `N ≥ 1`,
`maskAadhaar` first strips whitespace and then replaces every character of
the stripped string except the last `N` with '*', masking the whole stripped
string when it is shorter than `N`; in particular
`maskAadhaar "123456789012" 4 = "********9012"` and
`maskAadhaar "abc" 4 = "***"`. -/
theorem c8_mask_spec :
    (∀ (s : String) (N : Nat), 1 ≤ N →
      ((stripWS s.data).length < N →
          maskAadhaar s N = ⟨List.replicate (stripWS s.data).length '*'⟩) ∧
        (N ≤ (stripWS s.data).length →
          maskAadhaar s N = ⟨List.replicate ((stripWS s.data).length - N) '*' ++
            (stripWS s.data).drop ((stripWS s.data).length - N)⟩)) ∧
      maskAadhaar "123456789012" 4 = "********9012" ∧
      maskAadhaar "abc" 4 = "***" := by
  refine ⟨?_, by decide, by decide⟩
  intro s N hN
  constructor
  · intro hlt
    unfold maskAadhaar maskAadhaarL
    by_cases h0 : s.data = []
    · simp [h0, stripWS]
    · rw [if_neg h0]
      simp only [if_pos hlt]
  · intro hge
    unfold maskAadhaar maskAadhaarL
    have h0 : s.data ≠ [] := by
      intro h
      rw [h] at hge
      simp [stripWS] at hge
      omega
    rw [if_neg h0]
    simp only [if_neg (by omega : ¬ (stripWS s.data).length < N)]
    have hsl : jsSliceNeg (stripWS s.data) N
        = (stripWS s.data).drop ((stripWS s.data).length - N) := by
      unfold jsSliceNeg
      rw [if_neg (by omega)]
    rw [hsl]

theorem c8_witness :
    1 ≤ 4 ∧ maskAadhaar "xy" 4 = ⟨List.replicate (stripWS ("xy" : String).data).length '*'⟩ :=
  ⟨by decide, (c8_mask_spec.1 "xy" 4 (by decide)).1 (by decide)⟩

/-! ### Claim C10 -/

/-- C10: the registration route's inline `mask` helper returns any string
shorter than the visible count unchanged (the full plaintext), e.g.
`mask "abc" = "abc"`, whereas the validator's `maskAadhaar` masks the whole
string (`"***"`). -/
theorem c10_route_mask_short_unchanged :
    (∀ (s : String) (v : Nat), s.data.length < v → routeMask s v = s) ∧
      routeMask "abc" 4 = "abc" ∧ maskAadhaar "abc" 4 = "***" := by
  refine ⟨?_, by decide, by decide⟩
  intro s v h
  unfold routeMask routeMaskL jsSliceNeg
  rw [if_neg (by omega : ¬ v = 0)]
  rw [show s.data.length - v = 0 from by omega]
  simp

theorem c10_witness :
    ("ab" : String).data.length < 4 ∧ routeMask "ab" 4 = "ab" :=
  ⟨by decide, c10_route_mask_short_unchanged.1 "ab" 4 (by decide)⟩

/-! ### Hex, split and XOR lemmas -/

theorem hexVal_hexDigitChar : ∀ n < 16, hexVal (hexDigitChar n) = some n := by decide

theorem hexDigitChar_lower : ∀ n < 16, hexDigitChar n ∈ lowerHexChars := by decide

theorem lower_ne_colon : ∀ c ∈ lowerHexChars, c ≠ ':' := by decide

theorem hexCanonExists : ∀ c ∈ lowerHexChars,
    ∃ h, h < 16 ∧ hexVal c = some h ∧ hexDigitChar h = c := by decide

theorem hexCanon (c : Char) (hc : c ∈ lowerHexChars) (h : Nat)
    (hh : hexVal c = some h) : h < 16 ∧ hexDigitChar h = c := by
  obtain ⟨h', hlt, hv, hch⟩ := hexCanonExists c hc
  rw [hv] at hh
  cases hh
  exact ⟨hlt, hch⟩

theorem byteToHex_lower (b : Nat) (hb : b < 256) : ∀ c ∈ byteToHex b, c ∈ lowerHexChars := by
  intro c hc
  have h1 : b / 16 < 16 := by omega
  have h2 : b % 16 < 16 := Nat.mod_lt _ (by omega)
  simp only [byteToHex, List.mem_cons, List.not_mem_nil, or_false] at hc
  rcases hc with rfl | rfl
  · exact hexDigitChar_lower _ h1
  · exact hexDigitChar_lower _ h2

theorem bytesToHex_lower (bs : List Nat) (hbs : ∀ b ∈ bs, b < 256) :
    ∀ c ∈ bytesToHex bs, c ∈ lowerHexChars := by
  intro c hc
  simp only [bytesToHex, List.mem_flatMap] at hc
  obtain ⟨b, hb, hcb⟩ := hc
  exact byteToHex_lower b (hbs b hb) c hcb

theorem bytesToHex_nocolon (bs : List Nat) (hbs : ∀ b ∈ bs, b < 256) :
    ':' ∉ bytesToHex bs := by
  intro hmem
  exact lower_ne_colon ':' (bytesToHex_lower bs hbs ':' hmem) rfl

theorem bytesToHex_length (bs : List Nat) : (bytesToHex bs).length = 2 * bs.length := by
  induction bs with
  | nil => rfl
  | cons b bs ih =>
    simp only [bytesToHex, List.flatMap_cons] at *
    simp [byteToHex, List.length_append, ih]
    omega

theorem hexToBytes_bytesToHex (bs : List Nat) (hbs : ∀ b ∈ bs, b < 256) :
    hexToBytes (bytesToHex bs) = some bs := by
  induction bs with
  | nil => rfl
  | cons b bs ih =>
    have hb : b < 256 := hbs b (List.mem_cons_self b bs)
    have h1 : b / 16 < 16 := by omega
    have h2 : b % 16 < 16 := Nat.mod_lt _ (by omega)
    have hrest : hexToBytes (bytesToHex bs) = some bs :=
      ih (fun x hx => hbs x (List.mem_cons_of_mem _ hx))
    show hexToBytes (hexDigitChar (b / 16) :: hexDigitChar (b % 16) :: bytesToHex bs)
      = some (b :: bs)
    rw [hexToBytes, hexVal_hexDigitChar _ h1, hexVal_hexDigitChar _ h2, hrest]
    simp
    omega

theorem bytesToHex_injOn (bs1 bs2 : List Nat) (h1 : ∀ b ∈ bs1, b < 256)
    (h2 : ∀ b ∈ bs2, b < 256) (h : bytesToHex bs1 = bytesToHex bs2) : bs1 = bs2 := by
  have e1 := hexToBytes_bytesToHex bs1 h1
  have e2 := hexToBytes_bytesToHex bs2 h2
  rw [h, e2] at e1
  exact (Option.some.injEq _ _ ▸ e1).symm

theorem hexToBytes_canonical : ∀ l : List Char, (∀ c ∈ l, c ∈ lowerHexChars) →
    ∀ bs, hexToBytes l = some bs → bytesToHex bs = l ∧ ∀ b ∈ bs, b < 256 := by
  intro l
  induction l using hexToBytes.induct with
  | case1 =>
    intro _ bs hbs
    cases hbs
    exact ⟨rfl, by simp⟩
  | case2 c =>
    intro _ bs hbs
    simp [hexToBytes] at hbs
  | case3 c1 c2 rest h lo bs0 hrest hv2 hv1 ih =>
    intro hlow bs hbs
    have hc1 : c1 ∈ lowerHexChars := hlow c1 (by simp)
    have hc2 : c2 ∈ lowerHexChars := hlow c2 (by simp)
    rw [hexToBytes, hv1, hv2, hrest] at hbs
    cases hbs
    obtain ⟨hh, hch1⟩ := hexCanon c1 hc1 h hv1
    obtain ⟨hlo, hch2⟩ := hexCanon c2 hc2 lo hv2
    obtain ⟨hcanon, hlt⟩ := ih (fun c hc => hlow c (by simp [hc])) bs0 hrest
    constructor
    · show byteToHex (16 * h + lo) ++ bytesToHex bs0 = c1 :: c2 :: rest
      have e1 : (16 * h + lo) / 16 = h := by omega
      have e2 : (16 * h + lo) % 16 = lo := by omega
      simp [byteToHex, e1, e2, hch1, hch2, hcanon]
    · intro b hb
      rcases List.mem_cons.mp hb with rfl | hb'
      · omega
      · exact hlt b hb'
  | case4 c1 c2 rest hnone ih =>
    intro _ bs hbs
    rw [hexToBytes] at hbs
    split at hbs
    · rename_i h lo bs0 hv1 hv2 hrest
      exact (hnone h lo bs0 hv1 hv2 hrest).elim
    · exact Option.noConfusion hbs

theorem hexToBytes_total : ∀ l : List Char, (∀ c ∈ l, c ∈ lowerHexChars) →
    l.length % 2 = 0 → ∃ bs, hexToBytes l = some bs := by
  intro l
  induction l using hexToBytes.induct with
  | case1 => exact fun _ _ => ⟨[], rfl⟩
  | case2 c => intro _ heven; simp at heven
  | case3 c1 c2 rest h lo bs0 hrest hv2 hv1 ih =>
    intro _ _
    refine ⟨(16 * h + lo) :: bs0, ?_⟩
    rw [hexToBytes, hv1, hv2, hrest]
  | case4 c1 c2 rest hnone ih =>
    intro hlow heven
    have hc1 : c1 ∈ lowerHexChars := hlow c1 (by simp)
    have hc2 : c2 ∈ lowerHexChars := hlow c2 (by simp)
    obtain ⟨h1, _, hv1, _⟩ := hexCanonExists c1 hc1
    obtain ⟨h2, _, hv2, _⟩ := hexCanonExists c2 hc2
    have heven' : rest.length % 2 = 0 := by
      simp only [List.length_cons] at heven
      omega
    obtain ⟨bs0, hbs0⟩ := ih (fun c hc => hlow c (by simp [hc])) heven'
    exact (hnone h1 h2 bs0 hv1 hv2 hbs0).elim

theorem hexToBytes_lower_injOn (A B : List Char) (hA : ∀ c ∈ A, c ∈ lowerHexChars)
    (hB : ∀ c ∈ B, c ∈ lowerHexChars) (bs : List Nat)
    (hA' : hexToBytes A = some bs) (hB' : hexToBytes B = some bs) : A = B := by
  obtain ⟨hca, _⟩ := hexToBytes_canonical A hA bs hA'
  obtain ⟨hcb, _⟩ := hexToBytes_canonical B hB bs hB'
  rw [← hca, ← hcb]

theorem xorKS_invol (ks : Nat → Nat) : ∀ i bs, xorKS ks i (xorKS ks i bs) = bs := by
  intro i bs
  induction bs generalizing i with
  | nil => rfl
  | cons b bs ih =>
    simp only [xorKS, ih]
    rw [Nat.xor_cancel_right]

theorem xorKS_lt (ks : Nat → Nat) (hks : ∀ i, ks i < 256) :
    ∀ i bs, (∀ b ∈ bs, b < 256) → ∀ b ∈ xorKS ks i bs, b < 256 := by
  intro i bs
  induction bs generalizing i with
  | nil => intro _ b hb; simp [xorKS] at hb
  | cons x xs ih =>
    intro hall b hb
    simp only [xorKS, List.mem_cons] at hb
    rcases hb with rfl | hb'
    · have hx : x < 256 := hall x (List.mem_cons_self x xs)
      have : x ^^^ ks i < 2 ^ 8 :=
        Nat.xor_lt_two_pow (by simpa using hx) (by simpa using hks i)
      simpa using this
    · exact ih (i + 1) (fun y hy => hall y (List.mem_cons_of_mem _ hy)) b hb'

theorem splitOnColon_nocolon (l : List Char) (h : ':' ∉ l) : splitOnColon l = [l] := by
  induction l with
  | nil => rfl
  | cons c cs ih =>
    have hc : ¬ c = ':' := fun hx => h (by simp [hx])
    have hcs : ':' ∉ cs := fun hx => h (by simp [hx])
    rw [splitOnColon, if_neg hc, ih hcs]

theorem splitOnColon_append (A rest : List Char) (hA : ':' ∉ A) :
    splitOnColon (A ++ ':' :: rest) = A :: splitOnColon rest := by
  induction A with
  | nil => simp [splitOnColon]
  | cons c cs ih =>
    have hc : ¬ c = ':' := fun hx => hA (by simp [hx])
    have hcs : ':' ∉ cs := fun hx => hA (by simp [hx])
    rw [List.cons_append, splitOnColon, if_neg hc, ih hcs]

theorem splitOnColon_blob (A B C : List Char) (hA : ':' ∉ A) (hB : ':' ∉ B)
    (hC : ':' ∉ C) :
    splitOnColon (A ++ ':' :: (B ++ ':' :: C)) = [A, B, C] := by
  rw [splitOnColon_append A _ hA, splitOnColon_append B _ hB, splitOnColon_nocolon C hC]

/-- `decrypt` on a well-formed three-part blob reduces to decoding the three
hex fields and checking the recomputed tag. -/
theorem decrypt_wellformed (G : GCM) (A B C : List Char) (hA : ':' ∉ A)
    (hB : ':' ∉ B) (hC : ':' ∉ C) :
    decrypt G ⟨A ++ ':' :: (B ++ ':' :: C)⟩ =
      match hexToBytes A, hexToBytes B, hexToBytes C with
      | some iv, some ct, some tagv =>
        if G.tag iv ct = tagv then .ok (xorKS (G.ks iv) 0 ct)
        else .error "Failed to decrypt data"
      | _, _, _ => .error "Failed to decrypt data" := by
  have hne : (⟨A ++ ':' :: (B ++ ':' :: C)⟩ : String) ≠ "" := by
    intro h
    have hdata : A ++ ':' :: (B ++ ':' :: C) = [] := congrArg String.data h
    simp at hdata
  unfold decrypt
  rw [if_neg hne]
  rw [show (⟨A ++ ':' :: (B ++ ':' :: C)⟩ : String).data
      = A ++ ':' :: (B ++ ':' :: C) from rfl]
  rw [splitOnColon_blob A B C hA hB hC]

/-! ### Claim C2 -/

/-- C2: for every non-empty plaintext (and whatever keystream/tag function
AES-256-GCM instantiates under the fixed process key), decrypting the blob
produced by `encrypt` returns exactly the original plaintext, regardless of
which initialization vector was drawn. -/
theorem c2_encrypt_decrypt_roundtrip (G : GCM) (iv pt : List Nat) (hpt : pt ≠ [])
    (hptb : ∀ b ∈ pt, b < 256) (hivb : ∀ b ∈ iv, b < 256) :
    decrypt G (encrypt G iv pt) = .ok pt := by
  have hctb : ∀ b ∈ xorKS (G.ks iv) 0 pt, b < 256 :=
    xorKS_lt (G.ks iv) (G.ks_lt iv) 0 pt hptb
  have htagb := G.tag_lt iv (xorKS (G.ks iv) 0 pt)
  have henc : encrypt G iv pt
      = ⟨bytesToHex iv ++ ':' :: (bytesToHex (xorKS (G.ks iv) 0 pt) ++ ':' ::
          bytesToHex (G.tag iv (xorKS (G.ks iv) 0 pt)))⟩ := by
    unfold encrypt
    rw [if_neg hpt]
  rw [henc, decrypt_wellformed G _ _ _ (bytesToHex_nocolon _ hivb)
    (bytesToHex_nocolon _ hctb) (bytesToHex_nocolon _ htagb)]
  rw [hexToBytes_bytesToHex _ hivb, hexToBytes_bytesToHex _ hctb,
    hexToBytes_bytesToHex _ htagb]
  simp [xorKS_invol]

theorem c2_witness :
    ([65] : List Nat) ≠ [] ∧ decrypt gcm0 (encrypt gcm0 [0] [65]) = .ok [65] :=
  ⟨by decide, c2_encrypt_decrypt_roundtrip gcm0 [0] [65] (by decide) (by decide) (by decide)⟩

/-! ### Claim C9 -/

/-- C9: `decrypt` applied to the empty string returns the empty plaintext
without error — the falsy-input guard short-circuits before the three-part
split check. -/
theorem c9_decrypt_empty (G : GCM) : decrypt G "" = .ok [] := by
  unfold decrypt
  rw [if_pos rfl]

theorem c9_witness : decrypt gcm0 "" = .ok [] :=
  c9_decrypt_empty gcm0

/-! ### Claim C5 -/

/-- C5 counterexample: the empty string does not split into three parts, yet
`decrypt` returns the empty plaintext successfully instead of failing — so
the claim is false for the empty input blob. -/
theorem c5_counterexample :
    (splitOnColon ("" : String).data).length ≠ 3 ∧ decrypt gcm0 "" = .ok [] := by
  constructor
  · decide
  · unfold decrypt
    rw [if_pos rfl]

/-- C5 (amended): for every *non-empty* input blob, `decrypt` fails with the
decryption error whenever the blob does not split into exactly three
colon-separated parts, and whenever it does split but the recomputed
authentication tag does not match the transmitted one; in every failure case
the result is the bare error, never any partial plaintext. -/
theorem c5_decrypt_failure (G : GCM) (blob : String) (hne : blob ≠ "") :
    ((splitOnColon blob.data).length ≠ 3 →
        decrypt G blob = .error "Failed to decrypt data") ∧
      (∀ ivh cth tagh iv ct tagv,
        splitOnColon blob.data = [ivh, cth, tagh] →
        hexToBytes ivh = some iv → hexToBytes cth = some ct →
        hexToBytes tagh = some tagv → G.tag iv ct ≠ tagv →
        decrypt G blob = .error "Failed to decrypt data") := by
  constructor
  · intro hlen
    unfold decrypt
    rw [if_neg hne]
    split
    · rename_i ivh cth tagh heq
      exact absurd (by rw [heq]; rfl : (splitOnColon blob.data).length = 3) hlen
    · rfl
  · intro ivh cth tagh iv ct tagv hsplit hiv hct htag htagne
    unfold decrypt
    rw [if_neg hne]
    simp only [hsplit, hiv, hct, htag]
    rw [if_neg htagne]

theorem c5_witness :
    ("ab" : String) ≠ "" ∧ decrypt gcm0 "ab" = .error "Failed to decrypt data" :=
  ⟨by decide, (c5_decrypt_failure gcm0 "ab" (by decide)).1 (by decide)⟩

/-! ### Claim C6 -/

/-- C6: encryption is IV-dependent — for a fixed non-empty plaintext, two
`encrypt` calls drawing distinct 16-byte IVs produce different blobs, and
therefore the registration route's duplicate-prevention lookup (which
re-encrypts the candidate under a fresh IV and compares blobs for exact
equality) misses a stored encryption of the very same plaintext. -/
theorem c6_iv_distinct_blobs (G : GCM) (iv1 iv2 pt : List Nat) (hpt : pt ≠ [])
    (hne : iv1 ≠ iv2) (hl1 : iv1.length = 16) (hl2 : iv2.length = 16)
    (hb1 : ∀ b ∈ iv1, b < 256) (hb2 : ∀ b ∈ iv2, b < 256) :
    encrypt G iv1 pt ≠ encrypt G iv2 pt ∧
      duplicateLookup [encrypt G iv1 pt] G iv2 pt = false := by
  have hmain : encrypt G iv1 pt ≠ encrypt G iv2 pt := by
    intro h
    unfold encrypt at h
    rw [if_neg hpt, if_neg hpt] at h
    have hdata : bytesToHex iv1 ++ ':' :: (bytesToHex (xorKS (G.ks iv1) 0 pt) ++ ':' ::
          bytesToHex (G.tag iv1 (xorKS (G.ks iv1) 0 pt)))
        = bytesToHex iv2 ++ ':' :: (bytesToHex (xorKS (G.ks iv2) 0 pt) ++ ':' ::
          bytesToHex (G.tag iv2 (xorKS (G.ks iv2) 0 pt))) := congrArg String.data h
    have hlen : (bytesToHex iv1).length = (bytesToHex iv2).length := by
      rw [bytesToHex_length, bytesToHex_length, hl1, hl2]
    have hpre := (List.append_inj hdata hlen).1
    exact hne (bytesToHex_injOn iv1 iv2 hb1 hb2 hpre)
  refine ⟨hmain, ?_⟩
  simp only [duplicateLookup, List.contains_cons, List.contains_nil, Bool.or_false,
    beq_eq_false_iff_ne]
  exact Ne.symm hmain

theorem c6_witness :
    List.replicate 16 0 ≠ 1 :: List.replicate 15 0 ∧
      duplicateLookup [encrypt gcm0 (List.replicate 16 0) [50]] gcm0
        (1 :: List.replicate 15 0) [50] = false :=
  ⟨by decide,
    (c6_iv_distinct_blobs gcm0 (List.replicate 16 0) (1 :: List.replicate 15 0) [50]
      (by decide) (by decide) (by decide) (by decide) (by decide) (by decide)).2⟩

/-! ### Claim C4 -/

/-- C4: for a blob produced by `encrypt`, replacing the ciphertext hex field
or the tag hex field by any different canonical-hex string of the same
length makes `decrypt` fail with the decryption error rather than return any
plaintext.  Tag-field tampering fails unconditionally; ciphertext-field
tampering fails provided the recomputed GCM tag of the altered ciphertext
differs from the stored tag (GCM's authentication property — a tag collision
is the negligible-probability forgery event). -/
theorem c4_tamper_detect (G : GCM) (iv pt : List Nat) (hpt : pt ≠ [])
    (hptb : ∀ b ∈ pt, b < 256) (hivb : ∀ b ∈ iv, b < 256) :
    (encrypt G iv pt = ⟨bytesToHex iv ++ ':' ::
        (bytesToHex (xorKS (G.ks iv) 0 pt) ++ ':' ::
          bytesToHex (G.tag iv (xorKS (G.ks iv) 0 pt)))⟩) ∧
      (∀ C' : List Char, (∀ c ∈ C', c ∈ lowerHexChars) →
        C'.length = (bytesToHex (G.tag iv (xorKS (G.ks iv) 0 pt))).length →
        C' ≠ bytesToHex (G.tag iv (xorKS (G.ks iv) 0 pt)) →
        decrypt G ⟨bytesToHex iv ++ ':' ::
            (bytesToHex (xorKS (G.ks iv) 0 pt) ++ ':' :: C')⟩
          = .error "Failed to decrypt data") ∧
      (∀ (B' : List Char) (ct' : List Nat), (∀ c ∈ B', c ∈ lowerHexChars) →
        B' ≠ bytesToHex (xorKS (G.ks iv) 0 pt) →
        hexToBytes B' = some ct' →
        G.tag iv ct' ≠ G.tag iv (xorKS (G.ks iv) 0 pt) →
        decrypt G ⟨bytesToHex iv ++ ':' :: (B' ++ ':' ::
            bytesToHex (G.tag iv (xorKS (G.ks iv) 0 pt)))⟩
          = .error "Failed to decrypt data") := by
  have hctb : ∀ b ∈ xorKS (G.ks iv) 0 pt, b < 256 :=
    xorKS_lt (G.ks iv) (G.ks_lt iv) 0 pt hptb
  have htagb := G.tag_lt iv (xorKS (G.ks iv) 0 pt)
  refine ⟨by unfold encrypt; rw [if_neg hpt], ?_, ?_⟩
  · intro C' hlow hlen hneC
    rw [decrypt_wellformed G _ _ _ (bytesToHex_nocolon _ hivb)
      (bytesToHex_nocolon _ hctb)
      (fun hmem => lower_ne_colon ':' (hlow ':' hmem) rfl)]
    rw [hexToBytes_bytesToHex _ hivb, hexToBytes_bytesToHex _ hctb]
    have heven : C'.length % 2 = 0 := by
      rw [hlen, bytesToHex_length]
      omega
    obtain ⟨t', ht'⟩ := hexToBytes_total C' hlow heven
    rw [ht']
    have hneq : G.tag iv (xorKS (G.ks iv) 0 pt) ≠ t' := by
      intro he
      apply hneC
      obtain ⟨hcanon, _⟩ := hexToBytes_canonical C' hlow t' ht'
      rw [← hcanon, ← he]
    simp [hneq]
  · intro B' ct' hlow hneB hB' htagne
    rw [decrypt_wellformed G _ _ _ (bytesToHex_nocolon _ hivb)
      (fun hmem => lower_ne_colon ':' (hlow ':' hmem) rfl)
      (bytesToHex_nocolon _ htagb)]
    rw [hexToBytes_bytesToHex _ hivb, hB', hexToBytes_bytesToHex _ htagb]
    simp [htagne]

theorem c4_witness :
    ([65] : List Nat) ≠ [] ∧
      decrypt gcmId ⟨bytesToHex [0] ++ ':' ::
          (bytesToHex (xorKS (gcmId.ks [0]) 0 [65]) ++ ':' :: ['4', '2'])⟩
        = .error "Failed to decrypt data" :=
  ⟨by decide,
    (c4_tamper_detect gcmId [0] [65] (by decide) (by decide) (by decide)).2.1
      ['4', '2'] (by decide) (by decide) (by decide)⟩

end TTD
